import Mathlib

/-!
Verification development for the `ssacl` SpectrumScale ACL tool
(single source file `ssacl.py`).

The Python dictionaries, string operations and functions that the
specification talks about are shallowly embedded below:

* Python strings are Lean `String`s; the helpers `pyIn`, `pyStartswith`,
  `pySplit`, `pySplitlines` and `pySlice` mirror Python's `in` operator,
  `str.startswith`, `str.split(':')`, `str.splitlines()` and slice
  notation `s[a:b]` respectively.
* The ad-hoc ACL dictionary (keys `OWNER`, `GROUP`, `USERP`, `GROUPP`,
  `OTHERP`, `MASK`, `USERS`, `GROUPS`) becomes the structure `AclDict`;
  an `Option` field value of `none` models the key being absent from
  the dictionary.  The per-path keys `FQPN`/`DIRNAME` only record the
  file name being operated on and are not part of any claim, so they
  are left out of the structure.
* The nested per-user/per-group dictionaries become `AclEntry`; the
  two maps become insertion-ordered association lists (Python 3 dicts
  preserve insertion order, and assigning to an existing key keeps its
  position).
* Fallible code (Python `KeyError`/`IndexError`) returns `Option`,
  with `none` for the raised exception.
-/

/-! ## Python string primitives -/

/-- `startsWithL pre s` is Python's `s.startswith(pre)` on character lists. -/
def startsWithL : List Char → List Char → Bool
  | [], _ => true
  | _ :: _, [] => false
  | a :: pre, b :: s => a == b && startsWithL pre s

/-- `containsL s pat` is Python's `pat in s` on character lists. -/
def containsL : List Char → List Char → Bool
  | s, pat =>
    if startsWithL pat s then true
    else
      match s with
      | [] => false
      | _ :: rest => containsL rest pat

/-- Python `pat in s` for strings. -/
def pyIn (pat s : String) : Bool := containsL s.data pat.data

/-- Python `s.startswith(pre)` for strings. -/
def pyStartswith (s pre : String) : Bool := startsWithL pre.data s.data

/-- Python `s.split(sep)` for a single-character separator, on lists. -/
def pySplitC (sep : Char) : List Char → List (List Char)
  | [] => [[]]
  | c :: cs =>
    if c == sep then [] :: pySplitC sep cs
    else
      match pySplitC sep cs with
      | [] => [[c]]
      | h :: t => (c :: h) :: t

/-- Python `s.split(sep)` for strings. -/
def pySplit (s : String) (sep : Char) : List String :=
  (pySplitC sep s.data).map String.mk

/-- Python `s.splitlines()` on character lists (newline-only input). -/
def pySplitlinesC : List Char → List (List Char)
  | [] => []
  | c :: cs =>
    if c == '\n' then [] :: pySplitlinesC cs
    else
      match pySplitlinesC cs with
      | [] => [[c]]
      | h :: t => (c :: h) :: t

/-- Python `s.splitlines()` for strings. -/
def pySplitlines (s : String) : List String :=
  (pySplitlinesC s.data).map String.mk

/-- Python slice `s[a:b]` (for `a ≤ b`; out-of-range indices are clamped). -/
def pySlice (s : String) (a b : Nat) : String :=
  String.mk ((s.data.drop a).take (b - a))

/-! ## ACL data model -/

/-- One nested per-user / per-group dictionary
(`{'PERMS': ..., 'EFFECTIVE': ...}`); `EFFECTIVE = none` models the key
being absent (as after `add_user_acl`, which only sets `PERMS`). -/
structure AclEntry where
  PERMS : String
  EFFECTIVE : Option String
deriving DecidableEq, Repr

/-- The ACL dictionary built by `mmacls.get_acl` / consumed by
`write_acl_file`.  A `none` field models the key being absent from the
Python dict. -/
structure AclDict where
  OWNER : Option String := none
  GROUP : Option String := none
  USERP : Option String := none
  GROUPP : Option String := none
  OTHERP : Option String := none
  MASK : Option String := none
  USERS : Option (List (String × AclEntry)) := none
  GROUPS : Option (List (String × AclEntry)) := none
deriving DecidableEq, Repr

/-- Assignment `d[k] = e` on an insertion-ordered Python dict: an
existing key keeps its position, a new key is appended at the end. -/
def updDict (l : List (String × AclEntry)) (k : String) (e : AclEntry) :
    List (String × AclEntry) :=
  if l.any (fun p => p.1 == k) then
    l.map (fun p => if p.1 == k then (k, e) else p)
  else l ++ [(k, e)]

/-- `del d[k]` on a Python dict (keys are unique in a dict, so removing
every binding of `k` agrees with removing the single one). -/
def delDict (l : List (String × AclEntry)) (k : String) :
    List (String × AclEntry) :=
  l.filter (fun p => ¬ p.1 == k)

/-! ## `execute_command` (ssacl.py lines 65-93)

Only the guard is modelled; actually spawning a subprocess is outside
the embedding, so a non-empty command is represented by the `runs`
constructor carrying the raw command string. -/

/-- Result of `execute_command`: either an immediate return value, or
the fact that the function would go on to run the external command. -/
inductive ExecResult where
  | ret (rc : Int) (out err : Option String)
  | runs (cmd : String)
deriving DecidableEq, Repr

/-- `execute_command(commandString)`: `if not commandString: return
(99999999, None, None)`; `none` models the default argument `None`,
and the empty string is also falsy in Python. -/
def execute_command (commandString : Option String) : ExecResult :=
  match commandString with
  | none => .ret 99999999 none none
  | some s => if s = "" then .ret 99999999 none none else .runs s

/-! ## `mmacls.get_acl` parsing (ssacl.py lines 198-229) -/

/-- One iteration of the `for line in output.splitlines()` loop of
`mmacls.get_acl`, updating the dictionary being built.  `none` models
an uncaught `IndexError`/`KeyError` escaping the loop. -/
def get_acl_line (d : AclDict) (line : String) : Option AclDict :=
  if pyIn "#owner:" line then do
    let owner ← (pySplit line ':').get? 1
    some { d with OWNER := some owner }
  else if pyIn "#group:" line then do
    let g ← (pySplit line ':').get? 1
    some { d with GROUP := some g }
  else if pyStartswith line "user:" then do
    let f1 ← (pySplit line ':').get? 1
    if f1 = "" then do
      let p ← (pySplit line ':').get? 2
      some { d with USERP := some p }
    else do
      let f2 ← (pySplit line ':').get? 2
      let eff ←
        if pyIn "effective" line then do
          let f3 ← (pySplit line ':').get? 3
          some (pySlice f3 1 5)
        else some "????"
      let users ← d.USERS
      some { d with USERS := some (updDict users f1 ⟨pySlice f2 0 4, some eff⟩) }
  else if pyStartswith line "group:" then do
    let f1 ← (pySplit line ':').get? 1
    if f1 = "" then do
      let p ← (pySplit line ':').get? 2
      some { d with GROUPP := some p }
    else do
      let f2 ← (pySplit line ':').get? 2
      let eff ←
        if pyIn "effective" line then do
          let f3 ← (pySplit line ':').get? 3
          some (pySlice f3 1 5)
        else some "????"
      let groups ← d.GROUPS
      some { d with GROUPS := some (updDict groups f1 ⟨pySlice f2 0 4, some eff⟩) }
  else if pyIn "other::" line then do
    let p ← (pySplit line ':').get? 2
    some { d with OTHERP := some p }
  else if pyIn "mask::" line then do
    let p ← (pySplit line ':').get? 2
    some { d with MASK := some p }
  else some d

/-- The dictionary `mydict` as initialised at the top of
`mmacls.get_acl` (`GROUPS = {}`, `USERS = {}`; the path-valued keys
`FQPN`/`DIRNAME` are not modelled). -/
def get_acl_init : AclDict := { USERS := some [], GROUPS := some [] }

/-- The parsing core of `mmacls.get_acl`: fold the per-line handler
over `output.splitlines()`. -/
def get_acl_parse (output : String) : Option AclDict :=
  (pySplitlines output).foldlM get_acl_line get_acl_init

/-! ## `write_acl_file` (ssacl.py lines 602-651)

The function writes lines to the file `aclfile`; the embedding returns
the written lines (each Python `fd.write` adds a trailing newline,
restored by `writeAll` below).  The `if not aclfile / myacls / def_acl`
argument-presence guards (which print an error and return `None`) are
conditions on the *caller's arguments*, not on the dictionary contents,
and are not part of any claim, so the embedding starts after them.
`none` models a `KeyError` raised when neither `myacls` nor `def_acl`
carries a required triad key. -/

/-- `if 'K' in myacls: myacls['K'] else def_acl['K']` for a triad key. -/
def resolveField (mine fallback : Option String) : Option String :=
  match mine with
  | some v => some v
  | none => fallback

/-- The mask block of `write_acl_file`: an explicit mask is written
back verbatim; otherwise `mask::rwxc` is written when both the
`USERS` and the `GROUPS` keys are present. -/
def maskLines (myacls : AclDict) : List String :=
  match myacls.MASK with
  | some m => ["mask::" ++ m]
  | none =>
    if myacls.USERS.isSome && myacls.GROUPS.isSome then ["mask::rwxc"] else []

/-- The named-user block of `write_acl_file`. -/
def userLines (myacls : AclDict) : List String :=
  match myacls.USERS with
  | none => []
  | some us => us.map (fun q => "user:" ++ q.1 ++ ":" ++ q.2.PERMS)

/-- The named-group block of `write_acl_file`. -/
def groupLines (myacls : AclDict) : List String :=
  match myacls.GROUPS with
  | none => []
  | some gs => gs.map (fun q => "group:" ++ q.1 ++ ":" ++ q.2.PERMS)

/-- `write_acl_file(aclfile, myacls, def_acl)`: the sequence of lines
written to the ACL file, in write order. -/
def write_acl_file (myacls def_acl : AclDict) : Option (List String) := do
  let up ← resolveField myacls.USERP def_acl.USERP
  let gp ← resolveField myacls.GROUPP def_acl.GROUPP
  let op ← resolveField myacls.OTHERP def_acl.OTHERP
  some (["user::" ++ up, "group::" ++ gp, "other::" ++ op]
        ++ maskLines myacls ++ userLines myacls ++ groupLines myacls)

/-- The text of the written ACL file: each line followed by `"\n"`,
in order (one Python `fd.write( line + "\n" )` per element). -/
def writeAll : List String → String
  | [] => ""
  | l :: ls => l ++ "\n" ++ writeAll ls

/-! ## `mmacls` deletion methods (ssacl.py lines 371-392) -/

/-- The slice of `mmacls` object state the deletion methods touch:
`self.acls` and `self.default_acls`.  A `none` value models the
attribute being unset / unusable. -/
structure Mmacls where
  acls : Option AclDict
  default_acls : Option AclDict
deriving DecidableEq, Repr

/-- `mmacls.del_user_acl(username)` (lines 371-380).  The method tests
membership in `self.acls['USERS']` but deletes from
`self.default_acls['USERS']`.  The returned `Bool` is `true` when the
not-found message was printed; `none` models an uncaught exception. -/
def del_user_acl (st : Mmacls) (username : String) : Option (Mmacls × Bool) := do
  let a ← st.acls
  let users ← a.USERS
  if users.any (fun p => p.1 == username) then do
    let d ← st.default_acls
    let dusers ← d.USERS
    if dusers.any (fun p => p.1 == username) then
      let d2 : AclDict := { d with USERS := some (delDict dusers username) }
      some ({ st with default_acls := some d2 }, false)
    else none
  else some (st, true)

/-- `mmacls.del_group_acl(groupname)` (lines 383-392): tests and
deletes in `self.acls['GROUPS']`. -/
def del_group_acl (st : Mmacls) (groupname : String) : Option (Mmacls × Bool) := do
  let a ← st.acls
  let groups ← a.GROUPS
  if groups.any (fun p => p.1 == groupname) then
    let a2 : AclDict := { a with GROUPS := some (delDict groups groupname) }
    some ({ st with acls := some a2 }, false)
  else some (st, true)

/-! ## `mmacls.get_group_acl` (ssacl.py lines 419-437) -/

/-- `mmacls.get_group_acl(group)`.  The argument is `self.acls`
(`none` models `self.acls == None`); the result `none` models the
`KeyError` raised when the `GROUPS` key is absent.  Dictionary lookup
is `find?` on the association list (keys are unique in a dict). -/
def get_group_acl (acls : Option AclDict) (group : String) : Option String :=
  match acls with
  | none => some "????"
  | some a =>
    match a.GROUPS with
    | none => none
    | some gs =>
      match gs.find? (fun p => p.1 == group) with
      | some e => some e.2.PERMS
      | none => some "----"

/-! ## `gac_update_acl` / `gac_update_default_acl` buffer logic
(ssacl.py lines 665-742 and 745-810)

Both functions read the current ACL into a temp file, inspect its
whole content (`inputLine`), optionally append lines, and run the
vendor setter only when the group was not yet present.  The embedding
is the pure buffer transformation: input is the file content after the
vendor getter wrote it, output is the final file content plus whether
`mmputacl` would be invoked. -/

/-- The conservative default entries backfilled when `user::` is
absent from the read ACL. -/
def backfillLines : String := "user::rwxc\ngroup::r-x-\nother::----\nmask::r-x-\n"

/-- Buffer transformation of `gac_update_acl` (lines 764-798).
`foundGroup`/`foundOther` are computed by the source but never used.
Line 781 re-tests `aclGroup in f.read()` on an exhausted file handle,
i.e. against the empty string. -/
def gac_update_acl_buffer (inputLine aclGroup aclPerms : String) : String × Bool :=
  let found := pyIn aclGroup inputLine
  let _foundGroup := pyIn "group::" inputLine
  let _foundOther := pyIn "other::" inputLine
  let foundUser := pyIn "user::" inputLine
  let foundMask := pyIn "mask::" inputLine
  let found := found || pyIn aclGroup ""
  let buf := if foundUser = false then inputLine ++ backfillLines else inputLine
  let foundMask := if foundUser = false then true else foundMask
  if found = false then
    (buf ++ (if foundMask = false then "mask::r-x-\n" else "")
         ++ "group:" ++ aclGroup ++ ":" ++ aclPerms ++ "\n", true)
  else (buf, false)

/-- Buffer transformation of `gac_update_default_acl` (lines 685-729);
identical to `gac_update_acl_buffer` except that it lacks the
second exhausted-handle containment test. -/
def gac_update_default_acl_buffer (inputLine aclGroup aclPerms : String) :
    String × Bool :=
  let found := pyIn aclGroup inputLine
  let _foundGroup := pyIn "group::" inputLine
  let _foundOther := pyIn "other::" inputLine
  let foundUser := pyIn "user::" inputLine
  let foundMask := pyIn "mask::" inputLine
  let buf := if foundUser = false then inputLine ++ backfillLines else inputLine
  let foundMask := if foundUser = false then true else foundMask
  if found = false then
    (buf ++ (if foundMask = false then "mask::r-x-\n" else "")
         ++ "group:" ++ aclGroup ++ ":" ++ aclPerms ++ "\n", true)
  else (buf, false)

/-! ## Basic lemmas about the string primitives -/

lemma data_append (a b : String) : (a ++ b).data = a.data ++ b.data := rfl

lemma mk_data (s : String) : String.mk s.data = s := rfl

lemma startsWithL_iff (pre s : List Char) : startsWithL pre s = true ↔ pre <+: s := by
  induction pre generalizing s with
  | nil => simp [startsWithL]
  | cons a pre ih =>
    cases s with
    | nil => simp [startsWithL]
    | cons b s =>
      simp only [startsWithL, Bool.and_eq_true, beq_iff_eq, ih, List.cons_prefix_cons]

lemma startsWithL_append_self (pre rest : List Char) :
    startsWithL pre (pre ++ rest) = true := by
  rw [startsWithL_iff]
  exact ⟨rest, rfl⟩

lemma containsL_iff (s pat : List Char) : containsL s pat = true ↔ pat <:+: s := by
  induction s with
  | nil =>
    cases pat with
    | nil => simp [containsL, startsWithL]
    | cons a l => simp [containsL, startsWithL, List.infix_nil]
  | cons c rest ih =>
    rw [containsL]
    by_cases h : startsWithL pat (c :: rest) = true
    · rw [if_pos h]
      simp only [true_iff]
      exact ((startsWithL_iff _ _).mp h).isInfix
    · rw [if_neg h]
      show containsL rest pat = true ↔ pat <:+: c :: rest
      rw [ih, List.infix_cons_iff]
      constructor
      · exact fun hi => Or.inr hi
      · rintro (hp | hi)
        · exact absurd ((startsWithL_iff _ _).mpr hp) h
        · exact hi

lemma pyIn_true_iff (pat s : String) : pyIn pat s = true ↔ pat.data <:+: s.data :=
  containsL_iff s.data pat.data

lemma pyIn_false_iff (pat s : String) : pyIn pat s = false ↔ ¬ pat.data <:+: s.data := by
  rw [← pyIn_true_iff]
  cases h : pyIn pat s <;> simp [h]

lemma pyIn_false_of_mem (pat s : String) (c : Char)
    (hc : c ∈ pat.data) (hs : c ∉ s.data) : pyIn pat s = false := by
  rw [pyIn_false_iff]
  exact fun h => hs (h.subset hc)

lemma pyIn_false_of_length (pat s : String)
    (h : s.data.length < pat.data.length) : pyIn pat s = false := by
  rw [pyIn_false_iff]
  exact fun hi => absurd hi.length_le (by omega)

lemma pre_split {w a b : List Char} {c : Char} (hc : c ∉ w)
    (h : w <+: a ++ c :: b) : w <+: a := by
  induction a generalizing w with
  | nil =>
    cases w with
    | nil => exact List.nil_prefix
    | cons x w' =>
      rw [List.nil_append, List.cons_prefix_cons] at h
      exact absurd h.1 (by intro he; exact hc (he ▸ List.mem_cons_self _ _))
  | cons y a' ih =>
    cases w with
    | nil => exact List.nil_prefix
    | cons x w' =>
      rw [List.cons_append, List.cons_prefix_cons] at h
      rw [h.1, List.cons_prefix_cons]
      exact ⟨rfl, ih (fun hm => hc (List.mem_cons_of_mem _ hm)) h.2⟩

lemma sub_split {w a b : List Char} {c : Char} (hc : c ∉ w)
    (h : w <:+: a ++ c :: b) : w <:+: a ∨ w <:+: b := by
  induction a with
  | nil =>
    rw [List.nil_append, List.infix_cons_iff] at h
    rcases h with hp | hi
    · cases w with
      | nil => exact Or.inl List.nil_infix
      | cons x w' =>
        rw [List.cons_prefix_cons] at hp
        exact absurd hp.1 (by intro he; exact hc (he ▸ List.mem_cons_self _ _))
    · exact Or.inr hi
  | cons y a' ih =>
    rw [List.cons_append, List.infix_cons_iff] at h
    rcases h with hp | hi
    · exact Or.inl ((pre_split hc (by simpa using hp)).isInfix)
    · rcases ih hi with h1 | h2
      · exact Or.inl (h1.trans (List.infix_cons_iff.mpr (Or.inr (List.infix_refl a'))))
      · exact Or.inr h2

/-! ## Lemmas about `pySplitC` and `pySplitlinesC` -/

lemma pySplitC_no_sep {sep : Char} {a : List Char} (h : sep ∉ a) :
    pySplitC sep a = [a] := by
  induction a with
  | nil => rfl
  | cons c cs ih =>
    have hc : ¬ c == sep := by
      simp only [beq_iff_eq]
      exact fun he => h (he ▸ List.mem_cons_self _ _)
    rw [pySplitC, if_neg (by simpa using hc), ih (fun hm => h (List.mem_cons_of_mem _ hm))]

lemma pySplitC_append {sep : Char} {a : List Char} (h : sep ∉ a) (b : List Char) :
    pySplitC sep (a ++ sep :: b) = a :: pySplitC sep b := by
  induction a with
  | nil =>
    rw [List.nil_append, pySplitC, if_pos (by simp)]
  | cons c cs ih =>
    have hc : ¬ c == sep := by
      simp only [beq_iff_eq]
      exact fun he => h (he ▸ List.mem_cons_self _ _)
    rw [List.cons_append, pySplitC, if_neg (by simpa using hc),
        ih (fun hm => h (List.mem_cons_of_mem _ hm))]

lemma pySplitC_two {w n p : List Char} {sep : Char}
    (hw : sep ∉ w) (hn : sep ∉ n) (hp : sep ∉ p) :
    pySplitC sep (w ++ sep :: (n ++ sep :: p)) = [w, n, p] := by
  rw [pySplitC_append hw, pySplitC_append hn, pySplitC_no_sep hp]

lemma pySplitlinesC_append {a : List Char} (h : '\n' ∉ a) (b : List Char) :
    pySplitlinesC (a ++ '\n' :: b) = a :: pySplitlinesC b := by
  induction a with
  | nil =>
    rw [List.nil_append, pySplitlinesC, if_pos (by simp)]
  | cons c cs ih =>
    have hc : ¬ c == '\n' := by
      simp only [beq_iff_eq]
      exact fun he => h (he ▸ List.mem_cons_self _ _)
    rw [List.cons_append, pySplitlinesC, if_neg (by simpa using hc),
        ih (fun hm => h (List.mem_cons_of_mem _ hm))]

lemma pySplitlines_writeAll (lines : List String)
    (h : ∀ l ∈ lines, '\n' ∉ l.data) : pySplitlines (writeAll lines) = lines := by
  induction lines with
  | nil => rfl
  | cons l ls ih =>
    have hdata : (writeAll (l :: ls)).data = l.data ++ '\n' :: (writeAll ls).data := by
      show (l ++ "\n" ++ writeAll ls).data = _
      rw [data_append, data_append]
      simp
    rw [pySplitlines, hdata, pySplitlinesC_append (h l (List.mem_cons_self _ _))]
    rw [List.map_cons, mk_data]
    have := ih (fun x hx => h x (List.mem_cons_of_mem _ hx))
    rw [pySplitlines] at this
    rw [this]

/-! ## Well-formedness predicates used by the round-trip statements -/

/-- A character of the 4-character permission alphabet. -/
def permChar (c : Char) : Bool :=
  c == 'r' || c == 'w' || c == 'x' || c == 'c' || c == '-'

/-- A well-formed 4-character permission string (`{r,-}{w,-}{x,-}{c,-}`
up to alphabet membership). -/
def permOK (p : String) : Bool :=
  p.data.length == 4 && p.data.all permChar

/-- A named-user / named-group identifier the vendor text format can
carry on a line: non-empty, free of the structural characters `:`,
`#`, `\n`, and not containing the keyword `effective`. -/
def nameOK (n : String) : Bool :=
  !n.data.isEmpty
    && n.data.all (fun c => !(c == ':') && !(c == '#') && !(c == '\n'))
    && !containsL n.data "effective".data

lemma permOK_facts {p : String} (h : permOK p = true) :
    p.data.length = 4 ∧ ':' ∉ p.data ∧ '#' ∉ p.data ∧ '\n' ∉ p.data ∧ 'e' ∉ p.data := by
  simp only [permOK, Bool.and_eq_true, beq_iff_eq, List.all_eq_true] at h
  obtain ⟨hlen, hall⟩ := h
  refine ⟨hlen, ?_, ?_, ?_, ?_⟩ <;>
    · intro hm
      have := hall _ hm
      simp [permChar] at this

lemma nameOK_facts {n : String} (h : nameOK n = true) :
    n ≠ "" ∧ ':' ∉ n.data ∧ '#' ∉ n.data ∧ '\n' ∉ n.data
      ∧ containsL n.data "effective".data = false := by
  simp only [nameOK, Bool.and_eq_true, Bool.not_eq_true', List.all_eq_true] at h
  obtain ⟨⟨hne, hall⟩, heff⟩ := h
  refine ⟨?_, ?_, ?_, ?_, heff⟩
  · intro he
    rw [he] at hne
    simp at hne
  all_goals
    intro hm
    have := hall _ hm
    simp at this

/-! ## Dispatch lemmas: `get_acl_line` on each rendered line shape -/

lemma notMem_append {c : Char} {a b : List Char} (ha : c ∉ a) (hb : c ∉ b) :
    c ∉ a ++ b := by
  intro hm
  rcases List.mem_append.mp hm with h | h
  · exact ha h
  · exact hb h

lemma eff_len : ("effective".data).length = 9 := rfl

lemma eff_not_in_two {w : List Char} {n p : String} (hwlen : w.length ≤ 8)
    (hn : containsL n.data "effective".data = false)
    (hp : containsL p.data "effective".data = false) :
    containsL (w ++ ':' :: (n.data ++ ':' :: p.data)) "effective".data = false := by
  rw [Bool.eq_false_iff]
  intro ht
  have hi := (containsL_iff _ _).mp ht
  have hsep : ':' ∉ "effective".data := by decide
  rcases sub_split hsep hi with h1 | h2
  · have := h1.length_le
    rw [eff_len] at this
    omega
  · rcases sub_split hsep h2 with h3 | h4
    · rw [← containsL_iff] at h3
      rw [h3] at hn
      cases hn
    · rw [← containsL_iff] at h4
      rw [h4] at hp
      cases hp

lemma eff_not_sub_of_short {p : String} (h : p.data.length ≤ 8) :
    containsL p.data "effective".data = false := by
  rw [Bool.eq_false_iff]
  intro ht
  have := ((containsL_iff _ _).mp ht).length_le
  rw [eff_len] at this
  omega

lemma slice04_of_len4 {p : String} (h : p.data.length = 4) : pySlice p 0 4 = p := by
  rw [pySlice, List.drop_zero, List.take_of_length_le (by omega), mk_data]

lemma parse_user_triad (d : AclDict) (p : String)
    (hcol : ':' ∉ p.data) (hhash : '#' ∉ p.data) :
    get_acl_line d ("user::" ++ p) = some { d with USERP := some p } := by
  have hdata : ("user::" ++ p).data = ['u', 's', 'e', 'r'] ++ ':' :: ([] ++ ':' :: p.data) := rfl
  have hmem : '#' ∉ ("user::" ++ p).data := by
    rw [data_append]
    exact notMem_append (by decide) hhash
  have h1 : pyIn "#owner:" ("user::" ++ p) = false :=
    pyIn_false_of_mem _ _ '#' (by decide) hmem
  have h2 : pyIn "#group:" ("user::" ++ p) = false :=
    pyIn_false_of_mem _ _ '#' (by decide) hmem
  have h3 : pyStartswith ("user::" ++ p) "user:" = true := rfl
  have h4 : pySplit ("user::" ++ p) ':' = ["user", "", p] := by
    rw [pySplit, hdata, pySplitC_two (by decide) (by decide) hcol]
    simp only [List.map_cons, List.map_nil, mk_data]
  rw [get_acl_line, h1, h2, h3, h4]
  simp

lemma notMem_two {c : Char} {w n p : List Char} (hw : c ∉ w) (hc : ¬ c = ':')
    (hn : c ∉ n) (hp : c ∉ p) : c ∉ w ++ ':' :: (n ++ ':' :: p) := by
  refine notMem_append hw ?_
  intro hm
  rcases List.mem_cons.mp hm with h | h
  · exact hc h
  · rcases List.mem_append.mp h with h | h
    · exact hn h
    · rcases List.mem_cons.mp h with h | h
      · exact hc h
      · exact hp h

lemma parse_named_user (d : AclDict) (users : List (String × AclEntry)) (n p : String)
    (hd : d.USERS = some users) (hn : nameOK n = true)
    (hpcol : ':' ∉ p.data) (hphash : '#' ∉ p.data)
    (hpeff : containsL p.data "effective".data = false) :
    get_acl_line d ("user:" ++ n ++ ":" ++ p)
      = some { d with USERS := some (updDict users n ⟨pySlice p 0 4, some "????"⟩) } := by
  obtain ⟨hne, hncol, hnhash, hnnl, hneff⟩ := nameOK_facts hn
  have hdata : ("user:" ++ n ++ ":" ++ p).data
      = ['u', 's', 'e', 'r'] ++ ':' :: (n.data ++ ':' :: p.data) := by
    show (("user:".data ++ n.data) ++ [':']) ++ p.data = _
    rw [List.append_assoc, List.append_assoc]
    rfl
  have hmem : '#' ∉ ("user:" ++ n ++ ":" ++ p).data := by
    rw [hdata]
    exact notMem_two (by decide) (by decide) hnhash hphash
  have h1 : pyIn "#owner:" ("user:" ++ n ++ ":" ++ p) = false :=
    pyIn_false_of_mem _ _ '#' (by decide) hmem
  have h2 : pyIn "#group:" ("user:" ++ n ++ ":" ++ p) = false :=
    pyIn_false_of_mem _ _ '#' (by decide) hmem
  have h3 : pyStartswith ("user:" ++ n ++ ":" ++ p) "user:" = true := by
    rw [pyStartswith, hdata]
    exact startsWithL_append_self "user:".data _
  have h4 : pySplit ("user:" ++ n ++ ":" ++ p) ':' = ["user", n, p] := by
    rw [pySplit, hdata, pySplitC_two (by decide) hncol hpcol]
    simp only [List.map_cons, List.map_nil, mk_data]
  have heff : pyIn "effective" ("user:" ++ n ++ ":" ++ p) = false := by
    rw [pyIn, hdata]
    exact eff_not_in_two (by decide) hneff hpeff
  rw [get_acl_line, h1, h2, h3, h4]
  simp [hne, heff, hd]

lemma parse_group_triad (d : AclDict) (p : String)
    (hcol : ':' ∉ p.data) (hhash : '#' ∉ p.data) :
    get_acl_line d ("group::" ++ p) = some { d with GROUPP := some p } := by
  have hdata : ("group::" ++ p).data
      = ['g', 'r', 'o', 'u', 'p'] ++ ':' :: ([] ++ ':' :: p.data) := rfl
  have hmem : '#' ∉ ("group::" ++ p).data := by
    rw [data_append]
    exact notMem_append (by decide) hhash
  have h1 : pyIn "#owner:" ("group::" ++ p) = false :=
    pyIn_false_of_mem _ _ '#' (by decide) hmem
  have h2 : pyIn "#group:" ("group::" ++ p) = false :=
    pyIn_false_of_mem _ _ '#' (by decide) hmem
  have h3 : pyStartswith ("group::" ++ p) "user:" = false := rfl
  have h3g : pyStartswith ("group::" ++ p) "group:" = true := rfl
  have h4 : pySplit ("group::" ++ p) ':' = ["group", "", p] := by
    rw [pySplit, hdata, pySplitC_two (by decide) (by decide) hcol]
    simp only [List.map_cons, List.map_nil, mk_data]
  rw [get_acl_line, h1, h2, h3, h3g, h4]
  simp

lemma parse_named_group (d : AclDict) (groups : List (String × AclEntry)) (n p : String)
    (hd : d.GROUPS = some groups) (hn : nameOK n = true)
    (hpcol : ':' ∉ p.data) (hphash : '#' ∉ p.data)
    (hpeff : containsL p.data "effective".data = false) :
    get_acl_line d ("group:" ++ n ++ ":" ++ p)
      = some { d with GROUPS := some (updDict groups n ⟨pySlice p 0 4, some "????"⟩) } := by
  obtain ⟨hne, hncol, hnhash, hnnl, hneff⟩ := nameOK_facts hn
  have hdata : ("group:" ++ n ++ ":" ++ p).data
      = ['g', 'r', 'o', 'u', 'p'] ++ ':' :: (n.data ++ ':' :: p.data) := by
    show (("group:".data ++ n.data) ++ [':']) ++ p.data = _
    rw [List.append_assoc, List.append_assoc]
    rfl
  have hmem : '#' ∉ ("group:" ++ n ++ ":" ++ p).data := by
    rw [hdata]
    exact notMem_two (by decide) (by decide) hnhash hphash
  have h1 : pyIn "#owner:" ("group:" ++ n ++ ":" ++ p) = false :=
    pyIn_false_of_mem _ _ '#' (by decide) hmem
  have h2 : pyIn "#group:" ("group:" ++ n ++ ":" ++ p) = false :=
    pyIn_false_of_mem _ _ '#' (by decide) hmem
  have h3 : pyStartswith ("group:" ++ n ++ ":" ++ p) "user:" = false := by
    rw [pyStartswith, hdata]
    rfl
  have h3g : pyStartswith ("group:" ++ n ++ ":" ++ p) "group:" = true := by
    rw [pyStartswith, hdata]
    exact startsWithL_append_self "group:".data _
  have h4 : pySplit ("group:" ++ n ++ ":" ++ p) ':' = ["group", n, p] := by
    rw [pySplit, hdata, pySplitC_two (by decide) hncol hpcol]
    simp only [List.map_cons, List.map_nil, mk_data]
  have heff : pyIn "effective" ("group:" ++ n ++ ":" ++ p) = false := by
    rw [pyIn, hdata]
    exact eff_not_in_two (by decide) hneff hpeff
  rw [get_acl_line, h1, h2, h3, h3g, h4]
  simp [hne, heff, hd]

lemma parse_other_triad (d : AclDict) (p : String)
    (hcol : ':' ∉ p.data) (hhash : '#' ∉ p.data) :
    get_acl_line d ("other::" ++ p) = some { d with OTHERP := some p } := by
  have hdata : ("other::" ++ p).data
      = ['o', 't', 'h', 'e', 'r'] ++ ':' :: ([] ++ ':' :: p.data) := rfl
  have hmem : '#' ∉ ("other::" ++ p).data := by
    rw [data_append]
    exact notMem_append (by decide) hhash
  have h1 : pyIn "#owner:" ("other::" ++ p) = false :=
    pyIn_false_of_mem _ _ '#' (by decide) hmem
  have h2 : pyIn "#group:" ("other::" ++ p) = false :=
    pyIn_false_of_mem _ _ '#' (by decide) hmem
  have h3 : pyStartswith ("other::" ++ p) "user:" = false := rfl
  have h3g : pyStartswith ("other::" ++ p) "group:" = false := rfl
  have h5 : pyIn "other::" ("other::" ++ p) = true := rfl
  have h4 : pySplit ("other::" ++ p) ':' = ["other", "", p] := by
    rw [pySplit, hdata, pySplitC_two (by decide) (by decide) hcol]
    simp only [List.map_cons, List.map_nil, mk_data]
  rw [get_acl_line, h1, h2, h3, h3g, h5, h4]
  simp

lemma parse_mask (d : AclDict) (p : String)
    (hcol : ':' ∉ p.data) (hhash : '#' ∉ p.data) (hche : 'e' ∉ p.data) :
    get_acl_line d ("mask::" ++ p) = some { d with MASK := some p } := by
  have hdata : ("mask::" ++ p).data
      = ['m', 'a', 's', 'k'] ++ ':' :: ([] ++ ':' :: p.data) := rfl
  have hmem : '#' ∉ ("mask::" ++ p).data := by
    rw [data_append]
    exact notMem_append (by decide) hhash
  have h1 : pyIn "#owner:" ("mask::" ++ p) = false :=
    pyIn_false_of_mem _ _ '#' (by decide) hmem
  have h2 : pyIn "#group:" ("mask::" ++ p) = false :=
    pyIn_false_of_mem _ _ '#' (by decide) hmem
  have h3 : pyStartswith ("mask::" ++ p) "user:" = false := rfl
  have h3g : pyStartswith ("mask::" ++ p) "group:" = false := rfl
  have h5 : pyIn "other::" ("mask::" ++ p) = false := by
    refine pyIn_false_of_mem _ _ 'e' (by decide) ?_
    rw [data_append]
    exact notMem_append (by decide) hche
  have h6 : pyIn "mask::" ("mask::" ++ p) = true := rfl
  have h4 : pySplit ("mask::" ++ p) ':' = ["mask", "", p] := by
    rw [pySplit, hdata, pySplitC_two (by decide) (by decide) hcol]
    simp only [List.map_cons, List.map_nil, mk_data]
  rw [get_acl_line, h1, h2, h3, h3g, h5, h6, h4]
  simp

/-! ## Folding the named-entry blocks through the parser -/

lemma updDict_append {l : List (String × AclEntry)} {k : String}
    (h : ∀ r ∈ l, ¬ r.1 = k) (e : AclEntry) :
    updDict l k e = l ++ [(k, e)] := by
  rw [updDict, if_neg ?_]
  simp only [List.any_eq_true, beq_iff_eq]
  rintro ⟨p, hp, hk⟩
  exact h p hp hk

lemma eta_users {d : AclDict} {acc : List (String × AclEntry)}
    (hd : d.USERS = some acc) : d = { d with USERS := some acc } := by
  cases d
  simp_all

lemma eta_groups {d : AclDict} {acc : List (String × AclEntry)}
    (hd : d.GROUPS = some acc) : d = { d with GROUPS := some acc } := by
  cases d
  simp_all

lemma fold_user_lines (us : List (String × AclEntry)) (d : AclDict)
    (acc : List (String × AclEntry)) (hd : d.USERS = some acc)
    (hvalid : ∀ q ∈ us, nameOK q.1 = true ∧ permOK q.2.PERMS = true)
    (hfresh : ∀ q ∈ us, ∀ r ∈ acc, ¬ r.1 = q.1)
    (hnodup : (us.map Prod.fst).Nodup) :
    (us.map (fun q => "user:" ++ q.1 ++ ":" ++ q.2.PERMS)).foldlM get_acl_line d
      = some { d with
          USERS := some (acc ++ us.map (fun q => (q.1, ⟨q.2.PERMS, some "????"⟩))) } := by
  induction us generalizing d acc with
  | nil =>
    simp only [List.map_nil, List.foldlM_nil, List.append_nil]
    rw [← eta_users hd]
    rfl
  | cons q qs ih =>
    have hq := hvalid q (List.mem_cons_self _ _)
    obtain ⟨hql, hqc, hqh, hqn, hqe⟩ := permOK_facts hq.2
    have hstep := parse_named_user d acc q.1 q.2.PERMS hd hq.1 hqc hqh
        (eff_not_sub_of_short (by omega))
    rw [slice04_of_len4 hql, updDict_append (hfresh q (List.mem_cons_self _ _))] at hstep
    rw [List.map_cons, List.foldlM_cons, hstep]
    show (qs.map _).foldlM get_acl_line _ = _
    rw [ih ({ d with USERS := some (acc ++ [(q.1, ⟨q.2.PERMS, some "????"⟩)]) })
        (acc ++ [(q.1, ⟨q.2.PERMS, some "????"⟩)]) rfl
        (fun x hx => hvalid x (List.mem_cons_of_mem _ hx))
        ?_ (by simpa using hnodup.of_cons)]
    · simp
    · intro x hx r hr
      rcases List.mem_append.mp hr with h | h
      · exact hfresh x (List.mem_cons_of_mem _ hx) r h
      · rcases List.mem_cons.mp h with h | h
        · rw [h]
          intro he
          have : q.1 ∈ qs.map Prod.fst := by
            exact List.mem_map.mpr ⟨x, hx, he.symm ▸ rfl⟩
          exact (List.nodup_cons.mp hnodup).1 this
        · cases h

lemma fold_group_lines (gs : List (String × AclEntry)) (d : AclDict)
    (acc : List (String × AclEntry)) (hd : d.GROUPS = some acc)
    (hvalid : ∀ q ∈ gs, nameOK q.1 = true ∧ permOK q.2.PERMS = true)
    (hfresh : ∀ q ∈ gs, ∀ r ∈ acc, ¬ r.1 = q.1)
    (hnodup : (gs.map Prod.fst).Nodup) :
    (gs.map (fun q => "group:" ++ q.1 ++ ":" ++ q.2.PERMS)).foldlM get_acl_line d
      = some { d with
          GROUPS := some (acc ++ gs.map (fun q => (q.1, ⟨q.2.PERMS, some "????"⟩))) } := by
  induction gs generalizing d acc with
  | nil =>
    simp only [List.map_nil, List.foldlM_nil, List.append_nil]
    rw [← eta_groups hd]
    rfl
  | cons q qs ih =>
    have hq := hvalid q (List.mem_cons_self _ _)
    obtain ⟨hql, hqc, hqh, hqn, hqe⟩ := permOK_facts hq.2
    have hstep := parse_named_group d acc q.1 q.2.PERMS hd hq.1 hqc hqh
        (eff_not_sub_of_short (by omega))
    rw [slice04_of_len4 hql, updDict_append (hfresh q (List.mem_cons_self _ _))] at hstep
    rw [List.map_cons, List.foldlM_cons, hstep]
    show (qs.map _).foldlM get_acl_line _ = _
    rw [ih ({ d with GROUPS := some (acc ++ [(q.1, ⟨q.2.PERMS, some "????"⟩)]) })
        (acc ++ [(q.1, ⟨q.2.PERMS, some "????"⟩)]) rfl
        (fun x hx => hvalid x (List.mem_cons_of_mem _ hx))
        ?_ (by simpa using hnodup.of_cons)]
    · simp
    · intro x hx r hr
      rcases List.mem_append.mp hr with h | h
      · exact hfresh x (List.mem_cons_of_mem _ hx) r h
      · rcases List.mem_cons.mp h with h | h
        · rw [h]
          intro he
          have : q.1 ∈ qs.map Prod.fst := by
            exact List.mem_map.mpr ⟨x, hx, he.symm ▸ rfl⟩
          exact (List.nodup_cons.mp hnodup).1 this
        · cases h

/-! ## Heads of rendered lines -/

lemma ne_of_head (a b : Char) {s t : String} (ha : s.data.head? = some a)
    (hb : t.data.head? = some b) (hab : ¬ a = b) : ¬ s = t := by
  intro h
  rw [h, hb] at ha
  exact hab (by injection ha with h2; exact h2.symm)

lemma mask_notMem_userLines (r : AclDict) : "mask::rwxc" ∉ userLines r := by
  intro hl
  rw [userLines] at hl
  cases hUS : r.USERS with
  | none => rw [hUS] at hl; cases hl
  | some us =>
    rw [hUS] at hl
    obtain ⟨q, hq, he⟩ := List.mem_map.mp hl
    exact absurd he (ne_of_head 'u' 'm' rfl rfl (by decide))

lemma mask_notMem_groupLines (r : AclDict) : "mask::rwxc" ∉ groupLines r := by
  intro hl
  rw [groupLines] at hl
  cases hGS : r.GROUPS with
  | none => rw [hGS] at hl; cases hl
  | some gs =>
    rw [hGS] at hl
    obtain ⟨q, hq, he⟩ := List.mem_map.mp hl
    exact absurd he (ne_of_head 'g' 'm' rfl rfl (by decide))

/-! ## Claim theorems -/

/-- Concrete record for the C1 counterexample: all three triads
explicit, no `MASK` key, and `USERS`/`GROUPS` keys present but with
zero entries. -/
def c1Record : AclDict :=
  { USERP := some "rwxc", GROUPP := some "r-x-", OTHERP := some "----",
    USERS := some [], GROUPS := some [] }

/-- C1 (counterexample).  The claim says the serialized output contains
a `mask::rwxc` line if and only if the record has at least one
named-user or named-group entry.  For `c1Record` — no explicit mask and
zero named entries — `write_acl_file` nevertheless emits `mask::rwxc`,
because the source only tests that the `USERS` and `GROUPS` keys exist,
not that they are non-empty. -/
theorem c1_counterexample :
    write_acl_file c1Record {}
        = some ["user::rwxc", "group::r-x-", "other::----", "mask::rwxc"]
      ∧ c1Record.MASK = none ∧ c1Record.USERS = some [] ∧ c1Record.GROUPS = some [] :=
  ⟨rfl, rfl, rfl, rfl⟩

/-- C1 (amended).  For a record with no explicit mask, the rendered
output contains a `mask::rwxc` line if and only if both the `USERS`
and the `GROUPS` keys are present on the record (regardless of whether
either map has any entries). -/
theorem c1_mask_emission (r fb : AclDict) (lines : List String)
    (hM : r.MASK = none) (hw : write_acl_file r fb = some lines) :
    ("mask::rwxc" ∈ lines ↔ (r.USERS.isSome = true ∧ r.GROUPS.isSome = true)) := by
  rw [write_acl_file] at hw
  cases hu : resolveField r.USERP fb.USERP with
  | none => rw [hu] at hw; simp at hw
  | some up =>
  rw [hu] at hw
  cases hg : resolveField r.GROUPP fb.GROUPP with
  | none => rw [hg] at hw; simp at hw
  | some gp =>
  rw [hg] at hw
  cases ho : resolveField r.OTHERP fb.OTHERP with
  | none => rw [ho] at hw; simp at hw
  | some op =>
  rw [ho] at hw
  simp only [Option.bind_eq_bind, Option.some_bind] at hw
  have hlines : lines = ["user::" ++ up, "group::" ++ gp, "other::" ++ op]
      ++ maskLines r ++ userLines r ++ groupLines r := by
    injection hw with h
    exact h.symm
  have hmask : maskLines r
      = if r.USERS.isSome && r.GROUPS.isSome then ["mask::rwxc"] else [] := by
    rw [maskLines, hM]
  constructor
  · intro hmem
    by_cases hb : (r.USERS.isSome && r.GROUPS.isSome) = true
    · simpa using hb
    · exfalso
      rw [hlines, hmask, if_neg hb] at hmem
      simp only [List.append_nil, List.mem_append, List.mem_cons,
                 List.not_mem_nil, or_false] at hmem
      rcases hmem with ((h | h | h) | h) | h
      · exact absurd h.symm (ne_of_head 'u' 'm' rfl rfl (by decide))
      · exact absurd h.symm (ne_of_head 'g' 'm' rfl rfl (by decide))
      · exact absurd h.symm (ne_of_head 'o' 'm' rfl rfl (by decide))
      · exact absurd h (mask_notMem_userLines r)
      · exact absurd h (mask_notMem_groupLines r)
  · rintro ⟨h1, h2⟩
    rw [hlines]
    simp only [List.mem_append]
    refine Or.inl (Or.inl (Or.inr ?_))
    rw [hmask, h1, h2]
    simp
/-- C1 (witness): the amended mask-emission rule evaluated on
`c1Record`, whose `USERS`/`GROUPS` keys are present and empty. -/
theorem c1_mask_emission_witness :
    "mask::rwxc" ∈ ["user::rwxc", "group::r-x-", "other::----", "mask::rwxc"]
      ↔ (c1Record.USERS.isSome = true ∧ c1Record.GROUPS.isSome = true) :=
  c1_mask_emission c1Record {} _ rfl rfl

/-- Concrete `mmacls` state for C2: the access ACL and the default ACL
each carry a named-user entry for `bob`. -/
def c2State : Mmacls :=
  { acls := some { USERS := some [("bob", ⟨"rwx-", some "????"⟩)], GROUPS := some [] },
    default_acls := some { USERS := some [("bob", ⟨"r---", some "????"⟩)], GROUPS := some [] } }

/-- The state `del_user_acl` actually produces on `c2State`: the
access-ACL map still contains `bob`; the default-ACL map lost it. -/
def c2Result : Mmacls :=
  { acls := some { USERS := some [("bob", ⟨"rwx-", some "????"⟩)], GROUPS := some [] },
    default_acls := some { USERS := some [], GROUPS := some [] } }

/-- C2 (code bug).  The claim — and `del_user_acl`'s own docstring
("Remove a user ACL from the current ACL list") — say the entry is
deleted from the same map that was tested.  The code tests
`self.acls['USERS']` but deletes from `self.default_acls['USERS']`
(ssacl.py line 378), so on `c2State` the access-ACL entry for `bob`
survives and the default-ACL entry is deleted instead.
`del_group_acl` behaves as the claim states (second conjunct). -/
theorem c2_del_user_divergence :
    del_user_acl c2State "bob" = some (c2Result, false)
    ∧ del_group_acl
        { acls := some { USERS := some [], GROUPS := some [("dev", ⟨"rwx-", none⟩)] },
          default_acls := none } "dev"
      = some ({ acls := some { USERS := some [], GROUPS := some [] },
                default_acls := none }, false)
    ∧ del_group_acl
        { acls := some { USERS := some [], GROUPS := some [] },
          default_acls := none } "dev"
      = some ({ acls := some { USERS := some [], GROUPS := some [] },
                default_acls := none }, true) := by
  refine ⟨rfl, rfl, rfl⟩

/-- C3 (counterexample).  The claim says parsing
`user:bob:rwx-:effective:r---` stores effective `r---`.  The code
stores `split(':')[3][1:5]`, i.e. characters 1-4 of the literal field
`effective`, which is `ffec`, not `r---`. -/
theorem c3_counterexample :
    get_acl_parse "user:bob:rwx-:effective:r---\n"
      = some { get_acl_init with USERS := some [("bob", ⟨"rwx-", some "ffec"⟩)] }
    ∧ ¬ "ffec" = "r---" :=
  ⟨rfl, by decide⟩

/-- C3 (amended).  Parsing `user:bob:rwx-:effective:r---` yields the
named-user entry `bob` with perms `rwx-` and effective `ffec` (the
`[1:5]` slice of the fourth colon-field `effective`); parsing
`user:carol:r---`, which has no `effective` token, yields effective
`????`. -/
theorem c3_effective_parse :
    get_acl_parse "user:bob:rwx-:effective:r---\n"
      = some { get_acl_init with USERS := some [("bob", ⟨"rwx-", some "ffec"⟩)] }
    ∧ get_acl_parse "user:carol:r---\n"
      = some { get_acl_init with USERS := some [("carol", ⟨"r---", some "????"⟩)] } :=
  ⟨rfl, rfl⟩

/-- C5 (counterexample).  The claim says every permission substring is
stored as exactly the first 4 characters after the delimiting colon.
For the owner-triad line `user::rwxcjunk` the code stores the whole
field `rwxcjunk` (`split(':')[2]`, with no `[0:4]` slice). -/
theorem c5_counterexample :
    get_acl_parse "user::rwxcjunk\n" = some { get_acl_init with USERP := some "rwxcjunk" }
    ∧ ¬ "rwxcjunk" = "rwxc" :=
  ⟨rfl, by decide⟩

/-- C5 (amended).  Only named-user/named-group entries are truncated to
the first 4 characters of the permission field (`[0:4]`); the owner,
group, other and mask lines store the entire third colon-field,
trailing characters included.  `p` ranges over fields free of the
parser's structural characters `:`, `#`, `e` (newline-free follows). -/
theorem c5_slicing (d : AclDict) (users groups : List (String × AclEntry)) (n p : String)
    (hd : d.USERS = some users) (hdg : d.GROUPS = some groups) (hn : nameOK n = true)
    (hcol : ':' ∉ p.data) (hhash : '#' ∉ p.data) (hche : 'e' ∉ p.data) :
    get_acl_line d ("user::" ++ p) = some { d with USERP := some p }
    ∧ get_acl_line d ("group::" ++ p) = some { d with GROUPP := some p }
    ∧ get_acl_line d ("other::" ++ p) = some { d with OTHERP := some p }
    ∧ get_acl_line d ("mask::" ++ p) = some { d with MASK := some p }
    ∧ get_acl_line d ("user:" ++ n ++ ":" ++ p)
        = some { d with USERS := some (updDict users n ⟨pySlice p 0 4, some "????"⟩) }
    ∧ get_acl_line d ("group:" ++ n ++ ":" ++ p)
        = some { d with GROUPS := some (updDict groups n ⟨pySlice p 0 4, some "????"⟩) } := by
  have hpeff : containsL p.data "effective".data = false := by
    rw [Bool.eq_false_iff]
    intro ht
    exact hche (((containsL_iff _ _).mp ht).subset (by decide))
  exact ⟨parse_user_triad d p hcol hhash, parse_group_triad d p hcol hhash,
         parse_other_triad d p hcol hhash, parse_mask d p hcol hhash hche,
         parse_named_user d users n p hd hn hcol hhash hpeff,
         parse_named_group d groups n p hdg hn hcol hhash hpeff⟩

/-- C5 (witness): the slicing contrast evaluated at the 8-character
field `rwxcjunk`: the owner triad stores all 8 characters, while the
named-user entry for `dave` and the named-group entry for `dave` each
store only `rwxc`. -/
theorem c5_slicing_witness :
    get_acl_line get_acl_init ("user::" ++ "rwxcjunk")
      = some { get_acl_init with USERP := some "rwxcjunk" }
    ∧ get_acl_line get_acl_init ("user:" ++ "dave" ++ ":" ++ "rwxcjunk")
      = some { get_acl_init with
          USERS := some (updDict [] "dave" ⟨pySlice "rwxcjunk" 0 4, some "????"⟩) }
    ∧ get_acl_line get_acl_init ("group:" ++ "dave" ++ ":" ++ "rwxcjunk")
      = some { get_acl_init with
          GROUPS := some (updDict [] "dave" ⟨pySlice "rwxcjunk" 0 4, some "????"⟩) } :=
  ⟨(c5_slicing get_acl_init [] [] "dave" "rwxcjunk" rfl rfl (by decide)
      (by decide) (by decide) (by decide)).1,
   (c5_slicing get_acl_init [] [] "dave" "rwxcjunk" rfl rfl (by decide)
      (by decide) (by decide) (by decide)).2.2.2.2.1,
   (c5_slicing get_acl_init [] [] "dave" "rwxcjunk" rfl rfl (by decide)
      (by decide) (by decide) (by decide)).2.2.2.2.2⟩

/-- C9.  `get_group_acl` returns `????` when the record is
null/unavailable, the stored permission string when the non-null
record's `GROUPS` map contains the group, and `----` when it does not. -/
theorem c9_find_group_perms (a : AclDict) (gs : List (String × AclEntry)) (g : String)
    (hg : a.GROUPS = some gs) :
    get_group_acl none g = some "????"
    ∧ (∀ e, gs.find? (fun p => p.1 == g) = some e
        → get_group_acl (some a) g = some e.2.PERMS)
    ∧ (gs.find? (fun p => p.1 == g) = none
        → get_group_acl (some a) g = some "----") := by
  refine ⟨rfl, ?_, ?_⟩
  · intro e he
    simp [get_group_acl, hg, he]
  · intro he
    simp [get_group_acl, hg, he]

/-- C9 (witness): evaluated on a record whose `GROUPS` map holds
`dev ↦ rw--`, and on the null record. -/
theorem c9_find_group_perms_witness :
    get_group_acl none "dev" = some "????"
    ∧ get_group_acl (some { GROUPS := some [("dev", ⟨"rw--", none⟩)] }) "dev" = some "rw--"
    ∧ get_group_acl (some { GROUPS := some [("dev", ⟨"rw--", none⟩)] }) "absent" = some "----" :=
  ⟨(c9_find_group_perms { GROUPS := some [("dev", ⟨"rw--", none⟩)] } _ "dev" rfl).1,
   (c9_find_group_perms { GROUPS := some [("dev", ⟨"rw--", none⟩)] } _ "dev" rfl).2.1
      ("dev", ⟨"rw--", none⟩) rfl,
   (c9_find_group_perms { GROUPS := some [("dev", ⟨"rw--", none⟩)] } _ "absent" rfl).2.2 rfl⟩

/-- C10.  `execute_command` with an absent (`None`) or empty command
string executes nothing and returns the sentinel `(99999999, None,
None)`; a non-empty command proceeds to the subprocess machinery. -/
theorem c10_empty_command :
    execute_command none = .ret 99999999 none none
    ∧ execute_command (some "") = .ret 99999999 none none
    ∧ execute_command (some "ls -l") = .runs "ls -l" :=
  ⟨rfl, rfl, rfl⟩

/-! ## Buffer-update claims -/

lemma pyIn_empty (s : String) : pyIn "" s = true := by
  rw [pyIn, containsL.eq_def]
  rfl

lemma pyIn_empty_right {g : String} (hg : ¬ g = "") : pyIn g "" = false := by
  rw [pyIn]
  cases hd : g.data with
  | nil => exact absurd (String.ext hd) hg
  | cons c cs => rfl

/-- Buffer for the C6 counterexample: the group name is present but the
buffer is degenerate (no `user::` triad). -/
def c6Buf : String := "group:devteam:rwx-\n"

/-- Buffer with the group present and all standard directives present. -/
def c6FullBuf : String :=
  "#owner:alice\n#group:staff\nuser::rwxc\ngroup::r-x-\nother::----\nmask::r-x-\ngroup:devteam:rwx-\n"

/-- C6 (counterexample).  The claim says that whenever the group name
already occurs in the buffer the buffer is left unmodified.  On
`c6Buf`, which contains `devteam` but lacks a `user::` directive, the
code still appends the four backfill lines, so the buffer changes
(though no group line is appended and no permissions are updated). -/
theorem c6_counterexample :
    gac_update_acl_buffer c6Buf "devteam" "rwx-"
      = (c6Buf ++ backfillLines, false)
    ∧ ¬ (c6Buf ++ backfillLines = c6Buf) :=
  ⟨rfl, by decide⟩

/-- C6 (amended).  When the group name is already present: if the
`user::` directive is present too, the buffer is returned unmodified;
if `user::` is absent, exactly the four backfill lines are appended.
In both cases no group line is appended, no existing permissions are
touched, and the vendor setter is not invoked (second component
`false`). -/
theorem c6_present_group (buf g p : String) (hg : pyIn g buf = true) :
    (pyIn "user::" buf = true → gac_update_acl_buffer buf g p = (buf, false))
    ∧ (pyIn "user::" buf = false
        → gac_update_acl_buffer buf g p = (buf ++ backfillLines, false)) := by
  constructor
  · intro hu
    simp [gac_update_acl_buffer, hg, hu]
  · intro hu
    simp [gac_update_acl_buffer, hg, hu]

/-- C6 (witness): on `c6FullBuf` (group and `user::` both present) the
buffer comes back unchanged and the setter is not invoked. -/
theorem c6_present_group_witness :
    gac_update_acl_buffer c6FullBuf "devteam" "rwx-" = (c6FullBuf, false) :=
  (c6_present_group c6FullBuf "devteam" "rwx-" (by decide)).1 (by decide)

/-- C7.  For a buffer containing the standard triad directives but not
the group name, `gac_update_acl` appends a `mask::r-x-` line (only when
no `mask::` directive is present) followed by the new
`group:<name>:<perms>` line, in that order, after the existing buffer
content, and then invokes the vendor setter. -/
theorem c7_append_group (buf g p : String)
    (hg : pyIn g buf = false) (hu : pyIn "user::" buf = true)
    (hgrp : pyIn "group::" buf = true) (hoth : pyIn "other::" buf = true) :
    gac_update_acl_buffer buf g p
      = (buf ++ (if pyIn "mask::" buf = false then "mask::r-x-\n" else "")
          ++ "group:" ++ g ++ ":" ++ p ++ "\n", true) := by
  have hgne : ¬ g = "" := by
    intro he
    rw [he, pyIn_empty] at hg
    cases hg
  have hg2 : pyIn g "" = false := pyIn_empty_right hgne
  simp [gac_update_acl_buffer, hg, hu, hg2]

/-- Buffer of the specification's C7 scenario: three triads, no mask,
no `devteam`. -/
def c7Buf : String := "#owner:alice\n#group:staff\nuser::rwxc\ngroup::r-x-\nother::----\n"

/-- C7 (witness): the specification scenario — `mask::r-x-` followed by
`group:devteam:rwx-` appended after the existing lines. -/
theorem c7_append_group_witness :
    gac_update_acl_buffer c7Buf "devteam" "rwx-"
      = (c7Buf ++ (if pyIn "mask::" c7Buf = false then "mask::r-x-\n" else "")
          ++ "group:" ++ "devteam" ++ ":" ++ "rwx-" ++ "\n", true) :=
  c7_append_group c7Buf "devteam" "rwx-" (by decide) (by decide) (by decide) (by decide)

/-- C8.  For a buffer with the owning-user triad `user::` entirely
absent and the group not yet present, both `gac_update_acl` and
`gac_update_default_acl` backfill exactly `user::rwxc`, `group::r-x-`,
`other::----`, `mask::r-x-` (in that order, with no additional
`mask::` line) before appending the new group line. -/
theorem c8_backfill (buf g p : String)
    (hu : pyIn "user::" buf = false) (hg : pyIn g buf = false) :
    gac_update_acl_buffer buf g p
      = (buf ++ backfillLines ++ "group:" ++ g ++ ":" ++ p ++ "\n", true)
    ∧ gac_update_default_acl_buffer buf g p
      = (buf ++ backfillLines ++ "group:" ++ g ++ ":" ++ p ++ "\n", true) := by
  have hgne : ¬ g = "" := by
    intro he
    rw [he, pyIn_empty] at hg
    cases hg
  have hg2 : pyIn g "" = false := pyIn_empty_right hgne
  constructor
  · simp [gac_update_acl_buffer, hg, hu, hg2, String.append_assoc]
  · simp [gac_update_default_acl_buffer, hg, hu, String.append_assoc]

/-- C8 (witness): on the empty buffer (vendor output with no standard
entries at all) the four backfill lines and the group line appear. -/
theorem c8_backfill_witness :
    gac_update_acl_buffer "" "devteam" "rwx-"
      = ("" ++ backfillLines ++ "group:" ++ "devteam" ++ ":" ++ "rwx-" ++ "\n", true)
    ∧ gac_update_default_acl_buffer "" "devteam" "rwx-"
      = ("" ++ backfillLines ++ "group:" ++ "devteam" ++ ":" ++ "rwx-" ++ "\n", true) :=
  c8_backfill "" "devteam" "rwx-" (by decide) (by decide)

/-! ## C4: round-trip through the serializer and the parser -/

lemma foldlM_step {f : AclDict → String → Option AclDict} {d d2 : AclDict} {x : String}
    {xs : List String} (h : f d x = some d2) :
    (x :: xs).foldlM f d = xs.foldlM f d2 := by
  rw [List.foldlM_cons, h]
  rfl

/-- Concrete record for the C4 counterexample: a named-user entry but
no explicit mask. -/
def c4Record : AclDict :=
  { USERP := some "rwxc", GROUPP := some "r-x-", OTHERP := some "----",
    USERS := some [("bob", ⟨"rwx-", some "r---"⟩)], GROUPS := some [] }

/-- C4 (counterexample).  The claim says parse ∘ render preserves the
mask for every record.  `c4Record` has no mask key; the serializer
synthesizes `mask::rwxc`, so the re-parsed record carries
`MASK = some "rwxc"` where the original had none — the mask is not
preserved (and the `effective` field is rewritten to `????`). -/
theorem c4_counterexample :
    write_acl_file c4Record c4Record
      = some ["user::rwxc", "group::r-x-", "other::----", "mask::rwxc", "user:bob:rwx-"]
    ∧ get_acl_parse
        (writeAll ["user::rwxc", "group::r-x-", "other::----", "mask::rwxc", "user:bob:rwx-"])
      = some { OWNER := none, GROUP := none, USERP := some "rwxc", GROUPP := some "r-x-",
               OTHERP := some "----", MASK := some "rwxc",
               USERS := some [("bob", ⟨"rwx-", some "????"⟩)], GROUPS := some [] }
    ∧ c4Record.MASK = none :=
  ⟨rfl, rfl, rfl⟩

/-- C4 (amended).  For records in the image of the vendor format —
explicit 4-character triads and mask over the permission alphabet, both
named maps present, entry names non-empty, free of `:`/`#`/newline,
not containing `effective`, and pairwise distinct — parsing the
serialized output (with an arbitrary fallback record) reproduces the
owner/group/other triads, the mask, and every named entry's name and
permissions, in order; only the `effective` field is not preserved
(every re-parsed entry carries the sentinel `????`). -/
theorem c4_roundtrip (r fb : AclDict) (up gp op m : String)
    (us gs : List (String × AclEntry))
    (hUP : r.USERP = some up) (hGP : r.GROUPP = some gp)
    (hOP : r.OTHERP = some op) (hM : r.MASK = some m)
    (hUS : r.USERS = some us) (hGS : r.GROUPS = some gs)
    (hvUP : permOK up = true) (hvGP : permOK gp = true)
    (hvOP : permOK op = true) (hvM : permOK m = true)
    (hvUS : ∀ q ∈ us, nameOK q.1 = true ∧ permOK q.2.PERMS = true)
    (hvGS : ∀ q ∈ gs, nameOK q.1 = true ∧ permOK q.2.PERMS = true)
    (hndUS : (us.map Prod.fst).Nodup) (hndGS : (gs.map Prod.fst).Nodup) :
    ∃ lines, write_acl_file r fb = some lines
      ∧ get_acl_parse (writeAll lines)
        = some { OWNER := none, GROUP := none, USERP := some up, GROUPP := some gp,
                 OTHERP := some op, MASK := some m,
                 USERS := some (us.map (fun q => (q.1, ⟨q.2.PERMS, some "????"⟩))),
                 GROUPS := some (gs.map (fun q => (q.1, ⟨q.2.PERMS, some "????"⟩))) } := by
  obtain ⟨hupl, hupc, huph, hupn, hupe⟩ := permOK_facts hvUP
  obtain ⟨hgpl, hgpc, hgph, hgpn, hgpe⟩ := permOK_facts hvGP
  obtain ⟨hopl, hopc, hoph, hopn, hope⟩ := permOK_facts hvOP
  obtain ⟨hml, hmc, hmh, hmn, hme⟩ := permOK_facts hvM
  refine ⟨(["user::" ++ up, "group::" ++ gp, "other::" ++ op, "mask::" ++ m]
      ++ us.map (fun q => "user:" ++ q.1 ++ ":" ++ q.2.PERMS))
      ++ gs.map (fun q => "group:" ++ q.1 ++ ":" ++ q.2.PERMS), ?_, ?_⟩
  · rw [write_acl_file,
        show resolveField r.USERP fb.USERP = some up from by rw [hUP]; rfl,
        show resolveField r.GROUPP fb.GROUPP = some gp from by rw [hGP]; rfl,
        show resolveField r.OTHERP fb.OTHERP = some op from by rw [hOP]; rfl]
    simp only [Option.bind_eq_bind, Option.some_bind]
    rw [maskLines, hM, userLines, hUS, groupLines, hGS]
    simp
  · have hnl : ∀ l ∈ ((["user::" ++ up, "group::" ++ gp, "other::" ++ op, "mask::" ++ m]
        ++ us.map (fun q => "user:" ++ q.1 ++ ":" ++ q.2.PERMS))
        ++ gs.map (fun q => "group:" ++ q.1 ++ ":" ++ q.2.PERMS)), '\n' ∉ l.data := by
      intro l hl
      simp only [List.mem_append, List.mem_cons, List.not_mem_nil, or_false] at hl
      rcases hl with ((h | h | h | h) | h) | h
      · rw [h, data_append]
        exact notMem_append (by decide) hupn
      · rw [h, data_append]
        exact notMem_append (by decide) hgpn
      · rw [h, data_append]
        exact notMem_append (by decide) hopn
      · rw [h, data_append]
        exact notMem_append (by decide) hmn
      · obtain ⟨q, hq, he⟩ := List.mem_map.mp h
        rw [← he]
        have h1 := (nameOK_facts (hvUS q hq).1).2.2.2.1
        have h2 := (permOK_facts (hvUS q hq).2).2.2.2.1
        show '\n' ∉ (("user:".data ++ q.1.data) ++ [':']) ++ q.2.PERMS.data
        exact notMem_append (notMem_append (notMem_append (by decide) h1) (by decide)) h2
      · obtain ⟨q, hq, he⟩ := List.mem_map.mp h
        rw [← he]
        have h1 := (nameOK_facts (hvGS q hq).1).2.2.2.1
        have h2 := (permOK_facts (hvGS q hq).2).2.2.2.1
        show '\n' ∉ (("group:".data ++ q.1.data) ++ [':']) ++ q.2.PERMS.data
        exact notMem_append (notMem_append (notMem_append (by decide) h1) (by decide)) h2
    rw [get_acl_parse, pySplitlines_writeAll _ hnl]
    simp only [List.cons_append, List.nil_append]
    rw [foldlM_step (parse_user_triad get_acl_init up hupc huph),
        foldlM_step (parse_group_triad _ gp hgpc hgph),
        foldlM_step (parse_other_triad _ op hopc hoph),
        foldlM_step (parse_mask _ m hmc hmh hme),
        List.foldlM_append,
        fold_user_lines us _ [] rfl hvUS (by simp) hndUS]
    show (gs.map _).foldlM get_acl_line _ = _
    rw [fold_group_lines gs _ [] rfl hvGS (by simp) hndGS]
    rfl

/-- C4 (witness): the round trip evaluated on a record with one named
user (`bob â¦ rwx-`, stale effective `r---`) and one named group
(`devteam â¦ rwx-`): triads, mask and both entries survive; the
effective field comes back as `????`. -/
theorem c4_roundtrip_witness :
    write_acl_file
        { USERP := some "rwxc", GROUPP := some "r-x-", OTHERP := some "----",
          MASK := some "r-x-",
          USERS := some [("bob", ⟨"rwx-", some "r---"⟩)],
          GROUPS := some [("devteam", ⟨"rwx-", none⟩)] } {}
      = some ["user::rwxc", "group::r-x-", "other::----", "mask::r-x-",
              "user:bob:rwx-", "group:devteam:rwx-"]
    ∧ get_acl_parse
        (writeAll ["user::rwxc", "group::r-x-", "other::----", "mask::r-x-",
                   "user:bob:rwx-", "group:devteam:rwx-"])
      = some { OWNER := none, GROUP := none, USERP := some "rwxc",
               GROUPP := some "r-x-", OTHERP := some "----", MASK := some "r-x-",
               USERS := some [("bob", ⟨"rwx-", some "????"⟩)],
               GROUPS := some [("devteam", ⟨"rwx-", some "????"⟩)] } := by
  obtain ⟨lines, h1, h2⟩ := c4_roundtrip
      { USERP := some "rwxc", GROUPP := some "r-x-", OTHERP := some "----",
        MASK := some "r-x-",
        USERS := some [("bob", ⟨"rwx-", some "r---"⟩)],
        GROUPS := some [("devteam", ⟨"rwx-", none⟩)] } {}
      "rwxc" "r-x-" "----" "r-x-"
      [("bob", ⟨"rwx-", some "r---"⟩)] [("devteam", ⟨"rwx-", none⟩)]
      rfl rfl rfl rfl rfl rfl
      (by decide) (by decide) (by decide) (by decide)
      (by decide) (by decide) (by decide) (by decide)
  have hl : lines = ["user::rwxc", "group::r-x-", "other::----", "mask::r-x-",
      "user:bob:rwx-", "group:devteam:rwx-"] := by
    have h0 := h1.symm.trans (rfl :
      write_acl_file
        { USERP := some "rwxc", GROUPP := some "r-x-", OTHERP := some "----",
          MASK := some "r-x-",
          USERS := some [("bob", ⟨"rwx-", some "r---"⟩)],
          GROUPS := some [("devteam", ⟨"rwx-", none⟩)] } {}
      = some ["user::rwxc", "group::r-x-", "other::----", "mask::r-x-",
              "user:bob:rwx-", "group:devteam:rwx-"])
    exact Option.some.inj h0
  rw [hl] at h2
  exact ⟨rfl, by simpa using h2⟩
